import Mathlib

/-!
Verification development for the ash-video repository: a shallow embedding
of its device initialization, resource upload, one-shot command submission,
container-scanning and frame-loop logic, with theorems settling the spec's
claims about them.
-/

namespace AshVideo

/-! ## Memory-type selection (Resource Uploader)

The function find_memorytype_index is called from main.rs with a resource's
memory requirements, the device memory properties and a requested
property-flag set; its definition lives in the library crate and is not
under src, so it is modelled from the spec. -/

/-- A device memory type, carrying its property-flag bitmask. -/
structure MemoryType where
  property_flags : Nat
deriving DecidableEq, Repr

/-- Memory requirements of a resource: the bitmask of admissible memory
type indices. -/
structure MemoryRequirements where
  memory_type_bits : Nat
deriving DecidableEq, Repr

/-- The device's reported memory types, in index order. -/
structure MemoryProperties where
  memory_types : List MemoryType
deriving DecidableEq, Repr

/-- Memory type of index i with flags mt satisfies the request: bit i of
the requirements bitmask is set and its property flags are a superset of
the requested flags. -/
def memTypeMatches (req : MemoryRequirements) (flags : Nat) (i : Nat)
    (mt : MemoryType) : Bool :=
  req.memory_type_bits.testBit i && (Nat.land mt.property_flags flags == flags)

/-- Scan a list of memory types starting at index k, returning the first
index whose type satisfies the request. -/
def findMemFrom (req : MemoryRequirements) (flags : Nat) :
    Nat → List MemoryType → Option Nat
  | _, [] => none
  | k, mt :: rest =>
    if memTypeMatches req flags k mt then some k
    else findMemFrom req flags (k + 1) rest

/-- Modelled from the spec: find_memorytype_index is defined in the cosy
library crate, whose source is not under src (main.rs only calls it). Per
the spec, it scans the device's reported memory types and picks the
lowest-indexed type whose type-bitmask bit is set in the resource's memory
requirements and whose property flags are a superset of the requested
flags, returning no index when no type matches. -/
def find_memorytype_index (req : MemoryRequirements) (props : MemoryProperties)
    (flags : Nat) : Option Nat :=
  findMemFrom req flags 0 props.memory_types

/-- Index i names a memory type of the device that satisfies the request. -/
def MemSatisfies (req : MemoryRequirements) (props : MemoryProperties)
    (flags : Nat) (i : Nat) : Prop :=
  ∃ mt, props.memory_types[i]? = some mt ∧ memTypeMatches req flags i mt = true

theorem findMemFrom_some (req : MemoryRequirements) (flags : Nat) :
    ∀ (l : List MemoryType) (k i : Nat), findMemFrom req flags k l = some i →
      ∃ n mt, i = k + n ∧ l[n]? = some mt ∧
        memTypeMatches req flags (k + n) mt = true ∧
        ∀ m mt', m < n → l[m]? = some mt' →
          memTypeMatches req flags (k + m) mt' = false := by
  intro l
  induction l with
  | nil => intro k i h; simp [findMemFrom] at h
  | cons mt rest ih =>
    intro k i h
    by_cases hm : memTypeMatches req flags k mt = true
    · refine ⟨0, mt, ?_, by simp, ?_, ?_⟩
      · simp [findMemFrom, hm] at h; omega
      · simpa using hm
      · intro m mt' hlt; omega
    · have h' : findMemFrom req flags (k + 1) rest = some i := by
        simpa [findMemFrom, hm] using h
      obtain ⟨n, mt'', hi, hget, hmatch, hmin⟩ := ih (k + 1) i h'
      refine ⟨n + 1, mt'', by omega, by simpa using hget, ?_, ?_⟩
      · have : k + 1 + n = k + (n + 1) := by omega
        rwa [this] at hmatch
      · intro m mt' hlt hget'
        cases m with
        | zero =>
          simp at hget'
          subst hget'
          simpa using (Bool.eq_false_iff.mpr (by simpa using hm))
        | succ m' =>
          have : k + 1 + m' = k + (m' + 1) := by omega
          rw [← this]
          exact hmin m' mt' (by omega) (by simpa using hget')

theorem findMemFrom_none (req : MemoryRequirements) (flags : Nat) :
    ∀ (l : List MemoryType) (k : Nat), findMemFrom req flags k l = none →
      ∀ m mt', l[m]? = some mt' →
        memTypeMatches req flags (k + m) mt' = false := by
  intro l
  induction l with
  | nil => intro k _ m mt' hget; simp at hget
  | cons mt rest ih =>
    intro k h m mt' hget
    by_cases hm : memTypeMatches req flags k mt = true
    · simp [findMemFrom, hm] at h
    · have h' : findMemFrom req flags (k + 1) rest = none := by
        simpa [findMemFrom, hm] using h
      cases m with
      | zero =>
        simp at hget
        subst hget
        simpa using (Bool.eq_false_iff.mpr (by simpa using hm))
      | succ m' =>
        have : k + 1 + m' = k + (m' + 1) := by omega
        rw [← this]
        exact ih (k + 1) h' m' mt' (by simpa using hget)

/-- C1: find_memorytype_index returns the lowest-indexed memory type whose
bit is set in the requirements bitmask and whose property flags are a
superset of the requested flags; when no memory type satisfies both
conditions it returns none rather than a non-matching index. -/
theorem find_memorytype_index_correct (req : MemoryRequirements)
    (props : MemoryProperties) (flags : Nat) :
    (∀ i, find_memorytype_index req props flags = some i →
      MemSatisfies req props flags i ∧
      ∀ j, j < i → ¬ MemSatisfies req props flags j) ∧
    (find_memorytype_index req props flags = none →
      ∀ i, ¬ MemSatisfies req props flags i) := by
  constructor
  · intro i h
    obtain ⟨n, mt, hi, hget, hmatch, hmin⟩ :=
      findMemFrom_some req flags props.memory_types 0 i h
    have hi0 : i = n := by omega
    subst hi0
    constructor
    · exact ⟨mt, hget, by simpa using hmatch⟩
    · rintro j hlt ⟨mt', hget', hmatch'⟩
      have := hmin j mt' hlt hget'
      simp at this
      rw [this] at hmatch'
      exact absurd hmatch' (by simp)
  · rintro h i ⟨mt, hget, hmatch⟩
    have := findMemFrom_none req flags props.memory_types 0 h i mt hget
    simp at this
    rw [this] at hmatch
    exact absurd hmatch (by simp)

/-- Witness for C1 at a concrete device: with types of flags 1, 3, 3, a
requirements bitmask admitting indices 1 and 2, and requested flags 3, the
selection returns index 1, which satisfies the request while no smaller
index does. -/
theorem find_memorytype_index_correct_witness :
    MemSatisfies ⟨6⟩ ⟨[⟨1⟩, ⟨3⟩, ⟨3⟩]⟩ 3 1 ∧
      ∀ j, j < 1 → ¬ MemSatisfies ⟨6⟩ ⟨[⟨1⟩, ⟨3⟩, ⟨3⟩]⟩ 3 j :=
  (find_memorytype_index_correct ⟨6⟩ ⟨[⟨1⟩, ⟨3⟩, ⟨3⟩]⟩ 3).1 1 (by decide)

/-! ## Device and queue-family selection (Device/Surface Initializer)

Embedding of create_device from src/src/lib.rs: a nested find_map over the
enumerated physical devices and, within each device, over its enumerated
queue families, selecting the first family that both supports graphics and
can present to the surface. -/

/-- A queue family as reported by the driver; only the graphics capability
bit matters for the selection. -/
structure QueueFamilyProperties where
  supports_graphics : Bool
deriving DecidableEq, Repr

/-- A physical accelerator with its reported queue families. -/
structure PhysicalDevice where
  queue_families : List QueueFamilyProperties
deriving DecidableEq, Repr

/-- Queue family fam of index i on device d satisfies both capability
predicates: it supports graphics and presentation to the surface, the
latter given by the surface-support query. -/
def familyMatches (support : Nat → Nat → Bool) (d i : Nat)
    (fam : QueueFamilyProperties) : Bool :=
  fam.supports_graphics && support d i

/-- Inner find_map of create_device: scan the queue families of device d
starting at family index i, returning the first index whose family
supports both graphics and surface presentation. -/
def findFamilyFrom (support : Nat → Nat → Bool) (d : Nat) :
    Nat → List QueueFamilyProperties → Option Nat
  | _, [] => none
  | i, fam :: rest =>
    if familyMatches support d i fam then some i
    else findFamilyFrom support d (i + 1) rest

/-- Outer find_map of create_device: scan the physical devices starting at
device index d, returning the first (device, family) pair whose family
supports both graphics and surface presentation. -/
def findDeviceFrom (support : Nat → Nat → Bool) :
    Nat → List PhysicalDevice → Option (Nat × Nat)
  | _, [] => none
  | d, pdev :: rest =>
    match findFamilyFrom support d 0 pdev.queue_families with
    | some i => some (d, i)
    | none => findDeviceFrom support (d + 1) rest

/-- The (device, queue-family) selection of create_device in
src/src/lib.rs: the first queue family, iterating all accelerators and all
queue families per accelerator, that supports graphics and presentation to
the window surface; none when no such combination exists (the Rust code
then fails fatally through expect). -/
def create_device (pdevices : List PhysicalDevice)
    (support : Nat → Nat → Bool) : Option (Nat × Nat) :=
  findDeviceFrom support 0 pdevices

/-- The pair (d, i) names an existing device and queue family that
supports both graphics operations and presentation to the surface. -/
def PairSuitable (pdevices : List PhysicalDevice)
    (support : Nat → Nat → Bool) (d i : Nat) : Prop :=
  ∃ pdev fam, pdevices[d]? = some pdev ∧ pdev.queue_families[i]? = some fam ∧
    familyMatches support d i fam = true

theorem findFamilyFrom_some (support : Nat → Nat → Bool) (d : Nat) :
    ∀ (l : List QueueFamilyProperties) (k i : Nat),
      findFamilyFrom support d k l = some i →
      ∃ n fam, i = k + n ∧ l[n]? = some fam ∧
        familyMatches support d (k + n) fam = true ∧
        ∀ m fam', m < n → l[m]? = some fam' →
          familyMatches support d (k + m) fam' = false := by
  intro l
  induction l with
  | nil => intro k i h; simp [findFamilyFrom] at h
  | cons fam rest ih =>
    intro k i h
    by_cases hm : familyMatches support d k fam = true
    · refine ⟨0, fam, ?_, by simp, ?_, ?_⟩
      · simp [findFamilyFrom, hm] at h; omega
      · simpa using hm
      · intro m fam' hlt; omega
    · have h' : findFamilyFrom support d (k + 1) rest = some i := by
        simpa [findFamilyFrom, hm] using h
      obtain ⟨n, fam'', hi, hget, hmatch, hmin⟩ := ih (k + 1) i h'
      refine ⟨n + 1, fam'', by omega, by simpa using hget, ?_, ?_⟩
      · have : k + 1 + n = k + (n + 1) := by omega
        rwa [this] at hmatch
      · intro m fam' hlt hget'
        cases m with
        | zero =>
          simp at hget'
          subst hget'
          simpa using (Bool.eq_false_iff.mpr (by simpa using hm))
        | succ m' =>
          have : k + 1 + m' = k + (m' + 1) := by omega
          rw [← this]
          exact hmin m' fam' (by omega) (by simpa using hget')

theorem findFamilyFrom_none (support : Nat → Nat → Bool) (d : Nat) :
    ∀ (l : List QueueFamilyProperties) (k : Nat),
      findFamilyFrom support d k l = none →
      ∀ m fam', l[m]? = some fam' →
        familyMatches support d (k + m) fam' = false := by
  intro l
  induction l with
  | nil => intro k _ m fam' hget; simp at hget
  | cons fam rest ih =>
    intro k h m fam' hget
    by_cases hm : familyMatches support d k fam = true
    · simp [findFamilyFrom, hm] at h
    · have h' : findFamilyFrom support d (k + 1) rest = none := by
        simpa [findFamilyFrom, hm] using h
      cases m with
      | zero =>
        simp at hget
        subst hget
        simpa using (Bool.eq_false_iff.mpr (by simpa using hm))
      | succ m' =>
        have : k + 1 + m' = k + (m' + 1) := by omega
        rw [← this]
        exact ih (k + 1) h' m' fam' (by simpa using hget)

theorem findDeviceFrom_some (support : Nat → Nat → Bool) :
    ∀ (l : List PhysicalDevice) (k d i : Nat),
      findDeviceFrom support k l = some (d, i) →
      ∃ n pdev, d = k + n ∧ l[n]? = some pdev ∧
        findFamilyFrom support (k + n) 0 pdev.queue_families = some i ∧
        ∀ m pdev', m < n → l[m]? = some pdev' →
          findFamilyFrom support (k + m) 0 pdev'.queue_families = none := by
  intro l
  induction l with
  | nil => intro k d i h; simp [findDeviceFrom] at h
  | cons pdev rest ih =>
    intro k d i h
    cases hfam : findFamilyFrom support k 0 pdev.queue_families with
    | some j =>
      have hd : d = k ∧ i = j := by
        simp [findDeviceFrom, hfam] at h
        exact ⟨h.1.symm, h.2.symm⟩
      refine ⟨0, pdev, by omega, by simp, ?_, ?_⟩
      · rw [hd.2]; simpa using hfam
      · intro m pdev' hlt; omega
    | none =>
      have h' : findDeviceFrom support (k + 1) rest = some (d, i) := by
        simpa [findDeviceFrom, hfam] using h
      obtain ⟨n, pdev'', hd, hget, hfind, hmin⟩ := ih (k + 1) d i h'
      refine ⟨n + 1, pdev'', by omega, by simpa using hget, ?_, ?_⟩
      · have : k + 1 + n = k + (n + 1) := by omega
        rwa [this] at hfind
      · intro m pdev' hlt hget'
        cases m with
        | zero =>
          simp at hget'
          subst hget'
          simpa using hfam
        | succ m' =>
          have : k + 1 + m' = k + (m' + 1) := by omega
          rw [← this]
          exact hmin m' pdev' (by omega) (by simpa using hget')

theorem findDeviceFrom_none (support : Nat → Nat → Bool) :
    ∀ (l : List PhysicalDevice) (k : Nat),
      findDeviceFrom support k l = none →
      ∀ m pdev', l[m]? = some pdev' →
        findFamilyFrom support (k + m) 0 pdev'.queue_families = none := by
  intro l
  induction l with
  | nil => intro k _ m pdev' hget; simp at hget
  | cons pdev rest ih =>
    intro k h m pdev' hget
    cases hfam : findFamilyFrom support k 0 pdev.queue_families with
    | some j => simp [findDeviceFrom, hfam] at h
    | none =>
      have h' : findDeviceFrom support (k + 1) rest = none := by
        simpa [findDeviceFrom, hfam] using h
      cases m with
      | zero =>
        simp at hget
        subst hget
        simpa using hfam
      | succ m' =>
        have : k + 1 + m' = k + (m' + 1) := by omega
        rw [← this]
        exact ih (k + 1) h' m' pdev' (by simpa using hget)

/-- C3: create_device selects the first (device, queue-family) pair, in
iteration order over all accelerators and all queue families, that
supports both graphics and presentation; the selected pair has both
capabilities, every earlier pair in that order lacks one of them, and when
no accelerator exposes such a family it returns none (the caller then
fails fatally). -/
theorem create_device_correct (pdevices : List PhysicalDevice)
    (support : Nat → Nat → Bool) :
    (∀ d i, create_device pdevices support = some (d, i) →
      PairSuitable pdevices support d i ∧
      ∀ d' i', (d' < d ∨ (d' = d ∧ i' < i)) →
        ¬ PairSuitable pdevices support d' i') ∧
    (create_device pdevices support = none →
      ∀ d i, ¬ PairSuitable pdevices support d i) := by
  constructor
  · intro d i h
    obtain ⟨n, pdev, hd, hget, hfind, hmin⟩ :=
      findDeviceFrom_some support pdevices 0 d i h
    have hd0 : d = n := by omega
    subst hd0
    obtain ⟨n', fam, hi, hfget, hfmatch, hfmin⟩ :=
      findFamilyFrom_some support (0 + d) pdev.queue_families 0 i hfind
    have hi0 : i = n' := by omega
    subst hi0
    constructor
    · refine ⟨pdev, fam, hget, hfget, ?_⟩
      simpa using hfmatch
    · rintro d' i' hlt ⟨pdev', fam', hget', hfget', hmatch'⟩
      rcases hlt with hdlt | ⟨hdeq, hilt⟩
      · have hnone := hmin d' pdev' (by omega) hget'
        have := findFamilyFrom_none support (0 + d') pdev'.queue_families 0
          hnone i' fam' hfget'
        simp at this
        rw [this] at hmatch'
        exact absurd hmatch' (by simp)
      · subst hdeq
        have hpd : pdev' = pdev := by
          rw [hget] at hget'
          exact (Option.some.inj hget').symm
        subst hpd
        have := hfmin i' fam' hilt hfget'
        simp at this
        rw [this] at hmatch'
        exact absurd hmatch' (by simp)
  · rintro h d i ⟨pdev, fam, hget, hfget, hmatch⟩
    have hnone := findDeviceFrom_none support pdevices 0 h d pdev hget
    have := findFamilyFrom_none support (0 + d) pdev.queue_families 0
      hnone i fam hfget
    simp at this
    rw [this] at hmatch
    exact absurd hmatch (by simp)

/-- Witness for C3 at a concrete configuration: two accelerators, the
first with one graphics family lacking surface support, the second with a
non-graphics family then a family with both capabilities; the selection
returns device 1, family 1, which is suitable while every earlier pair is
not. -/
theorem create_device_correct_witness :
    PairSuitable [⟨[⟨true⟩]⟩, ⟨[⟨false⟩, ⟨true⟩]⟩]
        (fun d i => d == 1 && i == 1) 1 1 ∧
      ∀ d' i', (d' < 1 ∨ (d' = 1 ∧ i' < 1)) →
        ¬ PairSuitable [⟨[⟨true⟩]⟩, ⟨[⟨false⟩, ⟨true⟩]⟩]
          (fun d i => d == 1 && i == 1) d' i' :=
  (create_device_correct [⟨[⟨true⟩]⟩, ⟨[⟨false⟩, ⟨true⟩]⟩]
    (fun d i => d == 1 && i == 1)).1 1 1 (by decide)

/-! ## One-shot command submission (One-Shot Command Executor)

The function record_submit_commandbuffer is called from src/src/main.rs
for the texture layout transitions and buffer-to-image copy; its
definition lives in the cosy library crate and is not under src, so its
operation sequence is modelled from the spec, and a small device semantics
interprets that sequence to settle the synchronization claim. -/

/-- Host-visible operations that the one-shot executor performs, in order:
fence wait, fence reset, command-buffer reset, begin recording, the
caller-supplied recorded commands, end recording, and queue submission
carrying the queue, wait semaphores, signal semaphores and wait-stage
mask. -/
inductive GpuOp (Cmd : Type)
  | waitFence
  | resetFence
  | resetCommandBuffer
  | beginCmdBuffer
  | record (c : Cmd)
  | endCmdBuffer
  | submit (queue : Nat) (waitSemaphores signalSemaphores waitMask : List Nat)
deriving DecidableEq, Repr

/-- Device state as observed by the host: the commands recorded in the
reusable command buffer, the submitted work not yet completed, the work
whose side effects are complete and visible to the host, the fence status,
the recording status, and the parameters of the last submission. -/
structure ExecState (Cmd : Type) where
  recorded : List Cmd
  inFlight : List Cmd
  completed : List Cmd
  fenceSignaled : Bool
  recording : Bool
  lastSubmit : Option (Nat × List Nat × List Nat × List Nat)
deriving DecidableEq, Repr

/-- One step of the device semantics. Waiting on the fence blocks until
the device finishes the in-flight work, so upon return that work is
completed and the fence is signaled; submission moves the recorded
commands in flight and unsignals the fence. -/
def gpuStep {Cmd : Type} (s : ExecState Cmd) : GpuOp Cmd → ExecState Cmd
  | .waitFence =>
    { s with completed := s.completed ++ s.inFlight, inFlight := [],
             fenceSignaled := true }
  | .resetFence => { s with fenceSignaled := false }
  | .resetCommandBuffer => { s with recorded := [] }
  | .beginCmdBuffer => { s with recording := true }
  | .record c => { s with recorded := s.recorded ++ [c] }
  | .endCmdBuffer => { s with recording := false }
  | .submit q ws ss wm =>
    { s with inFlight := s.recorded, fenceSignaled := false,
             lastSubmit := some (q, ws, ss, wm) }

/-- Modelled from the spec: record_submit_commandbuffer is defined in the
cosy library crate, whose source is not under src (main.rs only calls it).
Per the spec it waits on the fence, resets the fence, resets the command
buffer, begins recording, invokes the caller-supplied recording callback,
ends recording, submits to the target queue with the given wait/signal
semaphores and wait-stage mask, then waits for the fence to signal
completion before returning. The value is the ordered list of operations
the call performs before it returns. -/
def record_submit_commandbuffer {Cmd : Type} (queue : Nat)
    (waitMask waitSemaphores signalSemaphores : List Nat)
    (cmds : List Cmd) : List (GpuOp Cmd) :=
  [GpuOp.waitFence, GpuOp.resetFence, GpuOp.resetCommandBuffer,
    GpuOp.beginCmdBuffer] ++ cmds.map GpuOp.record ++
    [GpuOp.endCmdBuffer,
      GpuOp.submit queue waitSemaphores signalSemaphores waitMask,
      GpuOp.waitFence]

theorem foldl_gpuStep_record {Cmd : Type} :
    ∀ (cmds : List Cmd) (s : ExecState Cmd),
      (cmds.map GpuOp.record).foldl gpuStep s =
        { s with recorded := s.recorded ++ cmds } := by
  intro cmds
  induction cmds with
  | nil => intro s; simp
  | cons c rest ih =>
    intro s
    simp only [List.map_cons, List.foldl_cons, gpuStep, ih]
    simp

/-- C2: executing the operation sequence of record_submit_commandbuffer
from any device state ends with every prior in-flight command and every
callback-recorded command completed and visible, the fence signaled, no
work left in flight, recording ended, and the submission made to the given
queue with the given wait/signal semaphores and wait-stage mask: the call
never returns before the fence signals completion of the submitted
commands. -/
theorem record_submit_commandbuffer_sync {Cmd : Type} (queue : Nat)
    (waitMask waitSemaphores signalSemaphores : List Nat)
    (cmds : List Cmd) (s0 : ExecState Cmd) :
    (record_submit_commandbuffer queue waitMask waitSemaphores
        signalSemaphores cmds).foldl gpuStep s0 =
      { recorded := cmds,
        inFlight := [],
        completed := s0.completed ++ s0.inFlight ++ cmds,
        fenceSignaled := true,
        recording := false,
        lastSubmit := some (queue, waitSemaphores, signalSemaphores,
          waitMask) } := by
  simp only [record_submit_commandbuffer, List.foldl_append, List.foldl_cons,
    List.foldl_nil, gpuStep, foldl_gpuStep_record]
  simp

/-! ## Aligned staging copy round-trip (Resource Uploader)

The upload sites in src/src/main.rs map a staging allocation, build an
aligned writer over the mapped pointer with the element type's natural
alignment, copy the client data slice in, and unmap. The aligned writer
itself comes from the graphics library's util module, not under src, so
the aligned copy is modelled from the spec: element k of the slice is
written at offset k times the element stride, the element size rounded up
to the alignment. Memory is a byte-addressed map. -/

/-- Write the byte list bs into memory starting at offset off. -/
def writeBytes (mem : Nat → Nat) (off : Nat) (bs : List Nat) : Nat → Nat :=
  fun a => if off ≤ a ∧ a - off < bs.length then bs.getD (a - off) 0 else mem a

/-- Read len bytes from memory starting at offset off. -/
def readBytes (mem : Nat → Nat) (off len : Nat) : List Nat :=
  (List.range len).map (fun j => mem (off + j))

/-- Round size up to the next multiple of align, the element stride of the
aligned writer (size plus the alignment padding). -/
def alignUp (size align : Nat) : Nat :=
  size + (align - size % align) % align

/-- Copy the elements of data, each a byte list, into memory at stride
intervals starting at offset off. -/
def copyFromSlice (mem : Nat → Nat) (stride off : Nat) :
    List (List Nat) → (Nat → Nat)
  | [] => mem
  | e :: rest => copyFromSlice (writeBytes mem off e) stride (off + stride) rest

/-- Modelled from the spec: the aligned copy performed at each upload site
in src/src/main.rs through the library-provided aligned writer, whose
implementation is not under src. Per the spec the data is copied in with
respect to the element type's natural alignment: element k of the slice
lands at offset k times the stride, the element size rounded up to the
alignment. -/
def alignedCopy (mem : Nat → Nat) (size align : Nat)
    (data : List (List Nat)) : Nat → Nat :=
  copyFromSlice mem (alignUp size align) 0 data

theorem size_le_alignUp (size align : Nat) : size ≤ alignUp size align :=
  Nat.le_add_right size ((align - size % align) % align)

theorem writeBytes_lt (mem : Nat → Nat) (off : Nat) (bs : List Nat)
    (a : Nat) (h : a < off) : writeBytes mem off bs a = mem a := by
  simp only [writeBytes]
  rw [if_neg]
  omega

theorem copyFromSlice_lt (stride : Nat) :
    ∀ (data : List (List Nat)) (mem : Nat → Nat) (off a : Nat), a < off →
      copyFromSlice mem stride off data a = mem a := by
  intro data
  induction data with
  | nil => intro mem off a _; rfl
  | cons e rest ih =>
    intro mem off a h
    simp only [copyFromSlice]
    rw [ih (writeBytes mem off e) (off + stride) a (by omega)]
    exact writeBytes_lt mem off e a h

theorem range_map_getD (l : List Nat) :
    (List.range l.length).map (fun j => l.getD j 0) = l := by
  apply List.ext_getElem
  · simp
  · intro i h1 h2
    simp [List.getD_eq_getElem?_getD, List.getElem?_eq_getElem h2]

theorem copy_read_elem (size stride : Nat) (hstride : size ≤ stride) :
    ∀ (data : List (List Nat)) (mem : Nat → Nat) (off k : Nat),
      (∀ e ∈ data, e.length = size) → k < data.length →
      readBytes (copyFromSlice mem stride off data) (off + k * stride) size =
        data.getD k [] := by
  intro data
  induction data with
  | nil => intro mem off k _ hk; simp at hk
  | cons e rest ih =>
    intro mem off k hlen hk
    cases k with
    | zero =>
      have helen : e.length = size := hlen e (by simp)
      simp only [copyFromSlice, List.getD_cons_zero, Nat.zero_mul,
        Nat.add_zero]
      have hread : ∀ j, j < size →
          copyFromSlice (writeBytes mem off e) stride (off + stride) rest
            (off + j) = e.getD j 0 := by
        intro j hj
        rw [copyFromSlice_lt stride rest (writeBytes mem off e)
          (off + stride) (off + j) (by omega)]
        simp only [writeBytes]
        rw [if_pos (by omega), Nat.add_sub_cancel_left]
      simp only [readBytes]
      calc (List.range size).map
            (fun j => copyFromSlice (writeBytes mem off e) stride
              (off + stride) rest (off + j))
          = (List.range size).map (fun j => e.getD j 0) := by
            apply List.map_congr_left
            intro j hj
            exact hread j (List.mem_range.mp hj)
        _ = e := by rw [← helen, range_map_getD]
    | succ k' =>
      have hoff : off + (k' + 1) * stride = (off + stride) + k' * stride := by
        ring
      simp only [copyFromSlice, List.getD_cons_succ, hoff]
      exact ih (writeBytes mem off e) (off + stride) k'
        (fun e' he' => hlen e' (by simp [he'])) (by simpa using hk)

/-- C4: reading every element slot back from the mapped region right after
the aligned copy, at the aligned stride and before unmap, yields exactly
the original client data, byte for byte, for any element size, alignment
and starting memory contents. -/
theorem alignedCopy_roundtrip (size align : Nat) (data : List (List Nat))
    (mem : Nat → Nat) (hlen : ∀ e ∈ data, e.length = size) :
    (List.range data.length).map (fun k =>
      readBytes (alignedCopy mem size align data)
        (k * alignUp size align) size) = data := by
  apply List.ext_getElem
  · simp
  · intro i h1 h2
    have h1' : i < data.length := by simpa using h1
    have := copy_read_elem size (alignUp size align)
      (size_le_alignUp size align) data mem 0 i hlen h1'
    simp only [Nat.zero_add] at this
    simp only [List.getElem_map, List.getElem_range, alignedCopy]
    rw [this, List.getD_eq_getElem?_getD, List.getElem?_eq_getElem h2,
      Option.getD_some]

/-- Witness for C4 at a concrete upload: two 2-byte elements copied with
alignment 4 over zeroed memory read back byte-for-byte equal to the
input. -/
theorem alignedCopy_roundtrip_witness :
    (List.range ([[1, 2], [3, 4]] : List (List Nat)).length).map (fun k =>
      readBytes (alignedCopy (fun _ => 0) 2 4 [[1, 2], [3, 4]])
        (k * alignUp 2 4) 2) = [[1, 2], [3, 4]] :=
  alignedCopy_roundtrip 2 4 [[1, 2], [3, 4]] (fun _ => 0) (by decide)

/-! ## Container scanning and startup pipeline (main)

Embedding of the front part of main in src/src/main.rs: input path
selection, file read, container parse, the timescale assertion, the
track-scanning loop with its expects and assertions, then window creation.
Assertion and expect failures abort the process and are modelled as the
error case of Except; propagated Err returns of main are modelled
separately in the startup pipeline below. -/

/-- Codec identifiers reported by the demuxing library that this code
compares against. -/
inductive CodecType
  | H264
  | VP9
  | MP4V
  | AV1
  | H263
  | Unknown
deriving DecidableEq, Repr

/-- Codec-specific configuration of a video sample entry, one constructor
per demuxer variant matched in main. -/
inductive VideoCodecSpecific
  | AVCConfig (avc : List Nat)
  | VPxConfig (bit_depth colour_primaries chroma_subsampling : Nat)
      (codec_init : List Nat)
  | ESDSConfig (mp4v : List Nat)
  | AV1Config
  | H263Config
deriving DecidableEq, Repr

/-- A video sample entry: dimensions, codec identifier and codec-specific
configuration. -/
structure VideoSampleEntry where
  width : Nat
  height : Nat
  codec_type : CodecType
  codec_specific : VideoCodecSpecific
deriving DecidableEq, Repr

/-- A sample description entry, which main requires to be a video entry. -/
inductive SampleEntry
  | Video (v : VideoSampleEntry)
  | Audio
  | Unknown
deriving DecidableEq, Repr

/-- The sample description box of a track. -/
structure Stsd where
  descriptions : List SampleEntry
deriving DecidableEq, Repr

/-- Track classification reported by the demuxer. -/
inductive TrackType
  | Video
  | Audio
  | Metadata
  | Unknown
deriving DecidableEq, Repr

/-- A container track: its type and optional sample description box. -/
structure Track where
  track_type : TrackType
  stsd : Option Stsd
deriving DecidableEq, Repr

/-- The parsed container: its media timescale and tracks. -/
structure VideoContext where
  timescale : Option Nat
  tracks : List Track
deriving DecidableEq, Repr

/-- The video parameters main accumulates while scanning tracks, from
struct VideoSpec in src/src/main.rs. -/
structure VideoSpec where
  width : Nat
  height : Nat
  codec_type : CodecType
deriving DecidableEq, Repr

/-- The Default impl of VideoSpec in src/src/main.rs: zero dimensions and
unknown codec. -/
def VideoSpec.default : VideoSpec :=
  { width := 0, height := 0, codec_type := CodecType.Unknown }

/-- The codec-family match of main.rs lines 95 to 121: names the family of
the codec-specific configuration, with the inner assertions of each arm;
an assertion failure aborts. -/
def codecFamilyName : VideoCodecSpecific → Except Unit String
  | .AVCConfig avc => if avc.isEmpty then .error () else .ok "AVC"
  | .VPxConfig bd cp cs ci =>
    if bd > 0 then
      if cp > 0 then
        if cs > 0 then
          if ci.isEmpty then .error () else .ok "VPx"
        else .error ()
      else .error ()
    else .error ()
  | .ESDSConfig mp4v => if mp4v.isEmpty then .error () else .ok "MP4V"
  | .AV1Config => .ok "AV1"
  | .H263Config => .ok "H263"

/-- The debug-gated sample assertions of main.rs lines 85 to 89: in debug
builds the entry must report width 640, height 360 and codec H264, in that
assertion order; in release builds nothing is checked. -/
def debugSampleAsserts (debug : Bool) (v : VideoSampleEntry) :
    Except Unit Unit :=
  if debug then
    if v.width = 640 then
      if v.height = 360 then
        if v.codec_type = CodecType.H264 then .ok ()
        else .error ()
      else .error ()
    else .error ()
  else .ok ()

/-- One iteration of the track loop in main.rs lines 76 to 125: non-video
tracks are skipped; a video track must expose an stsd whose first
description is a video entry, passes the debug-gated sample assertions,
overwrites the accumulated VideoSpec with its width, height and codec,
and must be of the AVC codec family. Any expect or assertion failure
aborts. -/
def processTrack (debug : Bool) (spec : VideoSpec) (t : Track) :
    Except Unit VideoSpec :=
  match t.track_type with
  | .Video =>
    match t.stsd with
    | none => .error ()
    | some stsd =>
      match stsd.descriptions.head? with
      | none => .error ()
      | some SampleEntry.Audio => .error ()
      | some SampleEntry.Unknown => .error ()
      | some (SampleEntry.Video v) =>
        match debugSampleAsserts debug v with
        | .error _ => .error ()
        | .ok _ =>
          let spec' : VideoSpec :=
            { width := v.width, height := v.height,
              codec_type := v.codec_type }
          match codecFamilyName v.codec_specific with
          | .error _ => .error ()
          | .ok name => if name = "AVC" then .ok spec' else .error ()
  | _ => .ok spec

/-- The track loop of main, folded over the container's tracks. -/
def scanLoop (debug : Bool) : VideoSpec → List Track → Except Unit VideoSpec
  | spec, [] => .ok spec
  | spec, t :: ts =>
    match processTrack debug spec t with
    | .ok spec' => scanLoop debug spec' ts
    | .error e => .error e

/-- The container validation and scanning phase of main: the unconditional
timescale assertion of main.rs lines 71 to 74, then the track loop
starting from the default VideoSpec. -/
def scanTracks (debug : Bool) (ctx : VideoContext) : Except Unit VideoSpec :=
  if ctx.timescale = some 1000 then
    scanLoop debug VideoSpec.default ctx.tracks
  else .error ()

/-- The hardcoded debug-build fallback sample path of main.rs line 58. -/
def samplePath : String := "./samples/Big_Buck_Bunny_360_10s_1MB.mp4"

/-- The input path selection of main.rs lines 56 to 62: the hardcoded
sample path in debug builds, otherwise argument 1 of the command line
(whose element 0 is the program name); none models the index panic when
no argument was passed. -/
def inputPath (debug : Bool) (args : List String) : Option String :=
  if debug then some samplePath else args[1]?

/-- How a run of main ends in this model: a propagated Err return through
the question-mark operator, an abort through an assertion, expect or index
panic, or reaching window creation and the rest of startup with the
scanned VideoSpec. -/
inductive MainResult
  | err
  | abort
  | launched (spec : VideoSpec)
deriving DecidableEq, Repr

/-- Observable outcome of the startup pipeline: the result, the path whose
opening was attempted, and whether a window was created. -/
structure MainTrace where
  result : MainResult
  opened : Option String
  windowCreated : Bool
deriving DecidableEq, Repr

/-- The environment a run of main sees: the build mode, the command line,
the file system as a partial map from paths to contents (none models a
missing or unreadable file), and the demuxer as a partial parse (none
models a malformed container). -/
structure Env where
  debug : Bool
  args : List String
  fs : String → Option (List Nat)
  parse : List Nat → Option VideoContext

/-- The startup pipeline of main in src/src/main.rs up to window creation:
select the input path, open and read the file (Err propagated on
failure), parse the container (Err propagated on failure), run the
timescale assertion and the track loop (aborting on failure), then create
the window. -/
def runMain (env : Env) : MainTrace :=
  match inputPath env.debug env.args with
  | none => { result := .abort, opened := none, windowCreated := false }
  | some path =>
    match env.fs path with
    | none => { result := .err, opened := some path, windowCreated := false }
    | some bytes =>
      match env.parse bytes with
      | none =>
        { result := .err, opened := some path, windowCreated := false }
      | some ctx =>
        match scanTracks env.debug ctx with
        | .error _ =>
          { result := .abort, opened := some path, windowCreated := false }
        | .ok spec =>
          { result := .launched spec, opened := some path,
            windowCreated := true }

/-- C5, counterexample: in a release build (debug false) the timescale
assertion and the AVC-family assertion still execute: a container with
timescale 500 aborts before any track is scanned, and a container with a
correct timescale but an AV1 video track aborts in the codec-family
assertion, refuting the claim that these two assertions run only in the
debug-build sample-validation path. -/
theorem release_asserts_counterexample :
    scanTracks false { timescale := some 500, tracks := [] } = .error () ∧
      scanTracks false
        ⟨some 1000, [⟨TrackType.Video, some ⟨[SampleEntry.Video
          ⟨640, 360, CodecType.AV1, VideoCodecSpecific.AV1Config⟩]⟩⟩]⟩ =
        .error () :=
  ⟨rfl, rfl⟩

/-- C5, amended: the timescale-equals-1000 assertion and the AVC-family
assertion execute in every build, release included; only the literal
width-640, height-360 and codec-H264 sample assertions are gated to debug
builds, so in a release build a video track of any dimensions passes as
long as its codec family is AVC. -/
theorem asserts_in_all_builds (debug : Bool) (ctx : VideoContext)
    (spec : VideoSpec) (v : VideoSampleEntry) (rest : List SampleEntry)
    (avc : List Nat) :
    (ctx.timescale ≠ some 1000 → scanTracks debug ctx = .error ()) ∧
    (codecFamilyName v.codec_specific ≠ .ok "AVC" →
      processTrack debug spec
        { track_type := TrackType.Video,
          stsd := some ⟨SampleEntry.Video v :: rest⟩ } = .error ()) ∧
    (v.codec_specific = .AVCConfig avc → avc ≠ [] →
      processTrack false spec
        { track_type := TrackType.Video,
          stsd := some ⟨SampleEntry.Video v :: rest⟩ } =
        .ok { width := v.width, height := v.height,
              codec_type := v.codec_type }) := by
  refine ⟨?_, ?_, ?_⟩
  · intro hts
    simp [scanTracks, hts]
  · intro hname
    simp only [processTrack, List.head?_cons]
    cases hdbg : debugSampleAsserts debug v with
    | error e => rfl
    | ok u =>
      cases hcf : codecFamilyName v.codec_specific with
      | error e => rfl
      | ok name =>
        have hne : ¬ name = "AVC" := by
          intro h
          exact hname (by rw [hcf, h])
        simp [hne]
  · intro hspec havc
    have hdbg : debugSampleAsserts false v = .ok () := rfl
    have hcf : codecFamilyName v.codec_specific = .ok "AVC" := by
      rw [hspec]
      simp [codecFamilyName, havc]
    simp [processTrack, hdbg, hcf]

/-- Witness for the amended C5 at concrete inputs: in a release build a
timescale of 500 aborts, and a 100 by 200 AVC video track passes with its
own dimensions reported, showing the literal sample assertions inactive
outside debug builds. -/
theorem asserts_in_all_builds_witness :
    scanTracks false { timescale := some 500, tracks := [] } = .error () ∧
      processTrack false VideoSpec.default
        { track_type := TrackType.Video,
          stsd := some ⟨[SampleEntry.Video
            ⟨100, 200, CodecType.H264, VideoCodecSpecific.AVCConfig [1]⟩]⟩ } =
        .ok { width := 100, height := 200, codec_type := CodecType.H264 } :=
  ⟨(asserts_in_all_builds false { timescale := some 500, tracks := [] }
      VideoSpec.default ⟨100, 200, CodecType.H264,
        VideoCodecSpecific.AVCConfig [1]⟩ [] [1]).1 (by decide),
    (asserts_in_all_builds false { timescale := some 500, tracks := [] }
      VideoSpec.default ⟨100, 200, CodecType.H264,
        VideoCodecSpecific.AVCConfig [1]⟩ [] [1]).2.2 rfl (by decide)⟩

/-- C6: when the selected input file is missing or unreadable, or its
contents fail to parse as a container, the run ends with a propagated
error return, not an abort, and no window is created. -/
theorem missing_or_malformed_input_err (env : Env) (path : String)
    (hpath : inputPath env.debug env.args = some path) :
    (env.fs path = none →
      runMain env =
        { result := .err, opened := some path, windowCreated := false }) ∧
    (∀ bytes, env.fs path = some bytes → env.parse bytes = none →
      runMain env =
        { result := .err, opened := some path, windowCreated := false }) := by
  constructor
  · intro hfs
    simp [runMain, hpath, hfs]
  · intro bytes hfs hparse
    simp [runMain, hpath, hfs, hparse]

/-- Witness for C6 at a concrete run: release build, one argument, an
empty file system and a failing demuxer give a propagated error with no
window. -/
theorem missing_or_malformed_input_err_witness :
    runMain ⟨false, ["player", "clip.mp4"], fun _ => none, fun _ => none⟩ =
      ⟨.err, some "clip.mp4", false⟩ :=
  (missing_or_malformed_input_err
    ⟨false, ["player", "clip.mp4"], fun _ => none, fun _ => none⟩
    "clip.mp4" (by simp [inputPath])).1 rfl

/-- A container holding exactly one video track with the given dimensions,
codec and codec-specific configuration, at the sample's timescale. -/
def mkSampleCtx (w h : Nat) (c : CodecType) (cfg : VideoCodecSpecific) :
    VideoContext :=
  ⟨some 1000,
    [⟨TrackType.Video, some ⟨[SampleEntry.Video ⟨w, h, c, cfg⟩]⟩⟩]⟩

/-- C7: in the debug build, a container whose single video track reports
width 640, height 360 and codec H264 with a nonempty AVC configuration
scans to exactly those literal values, and any mismatch in width, height
or codec makes the debug assertions abort the scan. -/
theorem debug_sample_asserts_literal (w h : Nat) (c : CodecType)
    (avc : List Nat) (havc : avc ≠ []) :
    (w = 640 → h = 360 → c = CodecType.H264 →
      scanTracks true (mkSampleCtx w h c (.AVCConfig avc)) =
        .ok { width := 640, height := 360, codec_type := CodecType.H264 }) ∧
    (w ≠ 640 ∨ h ≠ 360 ∨ c ≠ CodecType.H264 →
      scanTracks true (mkSampleCtx w h c (.AVCConfig avc)) = .error ()) := by
  constructor
  · rintro rfl rfl rfl
    simp [scanTracks, mkSampleCtx, scanLoop, processTrack,
      debugSampleAsserts, codecFamilyName, havc]
  · intro hmis
    have hdbg : debugSampleAsserts true ⟨w, h, c, .AVCConfig avc⟩ =
        .error () := by
      simp only [debugSampleAsserts, if_true]
      rcases hmis with hw | hh | hc
      · rw [if_neg hw]
      · by_cases hw : w = 640
        · rw [if_pos hw, if_neg hh]
        · rw [if_neg hw]
      · by_cases hw : w = 640
        · by_cases hh : h = 360
          · rw [if_pos hw, if_pos hh, if_neg hc]
          · rw [if_pos hw, if_neg hh]
        · rw [if_neg hw]
    simp [scanTracks, mkSampleCtx, scanLoop, processTrack, hdbg]

/-- Witness for C7 at the sample's reported values: width 640, height 360,
codec H264 and a nonempty AVC configuration pass the debug assertions and
scan to the literal VideoSpec. -/
theorem debug_sample_asserts_literal_witness :
    scanTracks true (mkSampleCtx 640 360 CodecType.H264
        (.AVCConfig [1])) =
      .ok { width := 640, height := 360, codec_type := CodecType.H264 } :=
  (debug_sample_asserts_literal 640 360 CodecType.H264 [1]
    (by decide)).1 rfl rfl rfl

/-- C8: the debug build always opens the hardcoded sample path, and the
release build opens the path given by the command line's element 1, the
first argument after the program name; the startup pipeline attempts to
open exactly that path. -/
theorem input_path_selection (args : List String) (prog p : String)
    (rest : List String) (env : Env) :
    inputPath true args = some samplePath ∧
    inputPath false (prog :: p :: rest) = some p ∧
    (env.debug = true → (runMain env).opened = some samplePath) ∧
    (env.debug = false → env.args = prog :: p :: rest →
      (runMain env).opened = some p) := by
  have hopen : ∀ path, inputPath env.debug env.args = some path →
      (runMain env).opened = some path := by
    intro path hpath
    simp only [runMain, hpath]
    split
    · rfl
    · split
      · rfl
      · split <;> rfl
  refine ⟨by simp [inputPath], by simp [inputPath], ?_, ?_⟩
  · intro hdbg
    exact hopen samplePath (by simp [inputPath, hdbg])
  · intro hdbg hargs
    exact hopen p (by simp [inputPath, hdbg, hargs])

/-- Witness for C8 at a concrete run: a release build with command line
of program name then one path opens that path. -/
theorem input_path_selection_witness :
    (runMain
        ⟨false, ["player", "clip.mp4"], fun _ => none, fun _ => none⟩).opened =
      some "clip.mp4" :=
  (input_path_selection ["player", "clip.mp4"] "player" "clip.mp4" []
    ⟨false, ["player", "clip.mp4"], fun _ => none, fun _ => none⟩).2.2.2
    rfl rfl

/-! ## Frame loop (main.rs lines 793 to 810)

Embedding of the polling event loop at the end of main: a destroying flag
starting false, a render call on each idle tick while not destroying, and
on a window-close request setting the flag, setting the control flow to
Exit (after which the loop dispatches no further events) and calling
App.destroy, which releases the accelerator instance handle. -/

/-- The events the loop handler distinguishes: the idle polling tick, the
window-close request, and everything else. -/
inductive WEvent
  | mainEventsCleared
  | closeRequested
  | other
deriving DecidableEq, Repr

/-- Observable loop state: the destroying flag, the number of render-stub
invocations, the number of App.destroy calls (each releasing the
accelerator instance handle), and whether the control flow was set to
Exit, terminating the loop. -/
structure LoopState where
  destroying : Bool
  renders : Nat
  destroys : Nat
  exited : Bool
deriving DecidableEq, Repr

/-- The loop state before any event: running, nothing rendered or
destroyed. -/
def initLoopState : LoopState :=
  { destroying := false, renders := 0, destroys := 0, exited := false }

/-- One dispatch of the event handler of main.rs lines 794 to 810. Once
the control flow is Exit the loop has terminated and dispatches nothing;
an idle tick invokes the render stub only while not destroying; a close
request sets destroying, sets Exit and calls App.destroy. -/
def stepEvent (s : LoopState) (e : WEvent) : LoopState :=
  if s.exited then s
  else
    match e with
    | .mainEventsCleared =>
      if !s.destroying then { s with renders := s.renders + 1 } else s
    | .closeRequested =>
      { s with destroying := true, exited := true,
               destroys := s.destroys + 1 }
    | .other => s

/-- Run the frame loop over a sequence of delivered events. -/
def runLoop (events : List WEvent) : LoopState :=
  events.foldl stepEvent initLoopState

/-- The number of idle polling ticks in an event sequence. -/
def renderTicks (events : List WEvent) : Nat :=
  events.countP (fun e => e == WEvent.mainEventsCleared)

theorem foldl_stepEvent_exited :
    ∀ (events : List WEvent) (s : LoopState), s.exited = true →
      events.foldl stepEvent s = s := by
  intro events
  induction events with
  | nil => intro s _; rfl
  | cons e rest ih =>
    intro s h
    have hs : stepEvent s e = s := by simp [stepEvent, h]
    simp [List.foldl_cons, hs, ih s h]

theorem foldl_stepEvent_running :
    ∀ (events : List WEvent), WEvent.closeRequested ∉ events →
      ∀ (r : Nat),
        events.foldl stepEvent
            { destroying := false, renders := r, destroys := 0,
              exited := false } =
          { destroying := false, renders := r + renderTicks events,
            destroys := 0, exited := false } := by
  intro events
  induction events with
  | nil => intro _ r; simp [renderTicks]
  | cons e rest ih =>
    intro hmem r
    have hne : e ≠ WEvent.closeRequested := fun h => hmem (by simp [h])
    have hrest : WEvent.closeRequested ∉ rest := fun h => hmem (by simp [h])
    cases e with
    | mainEventsCleared =>
      have hstep : stepEvent
          { destroying := false, renders := r, destroys := 0,
            exited := false } WEvent.mainEventsCleared =
          { destroying := false, renders := r + 1, destroys := 0,
            exited := false } := rfl
      rw [List.foldl_cons, hstep, ih hrest (r + 1)]
      simp [renderTicks, List.countP_cons]
      omega
    | closeRequested => exact absurd rfl hne
    | other =>
      have hstep : stepEvent
          { destroying := false, renders := r, destroys := 0,
            exited := false } WEvent.other =
          { destroying := false, renders := r, destroys := 0,
            exited := false } := rfl
      rw [List.foldl_cons, hstep, ih hrest r]
      simp [renderTicks, List.countP_cons]

/-- C9: for any event sequence whose first window-close request arrives
after some close-free prefix, the loop renders once per idle tick of that
prefix, then on the close request transitions from running to destroying
exactly once, calls App.destroy exactly once (releasing the accelerator
instance handle), and exits; no event after the close request is
dispatched, so the render stub is never invoked again. -/
theorem frame_loop_close (pre post : List WEvent)
    (hpre : WEvent.closeRequested ∉ pre) :
    runLoop (pre ++ WEvent.closeRequested :: post) =
      { destroying := true, renders := renderTicks pre, destroys := 1,
        exited := true } := by
  have h1 : pre.foldl stepEvent initLoopState =
      { destroying := false, renders := renderTicks pre, destroys := 0,
        exited := false } := by
    have := foldl_stepEvent_running pre hpre 0
    simpa [initLoopState] using this
  have h2 : stepEvent
      { destroying := false, renders := renderTicks pre, destroys := 0,
        exited := false } WEvent.closeRequested =
      { destroying := true, renders := renderTicks pre, destroys := 1,
        exited := true } := rfl
  calc runLoop (pre ++ WEvent.closeRequested :: post)
      = (WEvent.closeRequested :: post).foldl stepEvent
          (pre.foldl stepEvent initLoopState) := by
        simp [runLoop, List.foldl_append]
    _ = post.foldl stepEvent
          { destroying := true, renders := renderTicks pre, destroys := 1,
            exited := true } := by rw [List.foldl_cons, h1, h2]
    _ = { destroying := true, renders := renderTicks pre, destroys := 1,
          exited := true } := foldl_stepEvent_exited post _ rfl

/-- Witness for C9 at a concrete event sequence: two idle ticks and an
unrelated event, then a close request followed by one more idle tick,
yield two renders, one destroy, and a terminated destroying loop. -/
theorem frame_loop_close_witness :
    runLoop [WEvent.mainEventsCleared, WEvent.other,
        WEvent.mainEventsCleared, WEvent.closeRequested,
        WEvent.mainEventsCleared] =
      { destroying := true, renders := 2, destroys := 1, exited := true } :=
  frame_loop_close
    [WEvent.mainEventsCleared, WEvent.other, WEvent.mainEventsCleared]
    [WEvent.mainEventsCleared] (by decide)

/-! ## Last video track wins (track-scanning loop of main) -/

/-- The track is classified as a video track. -/
def isVideoTrack (t : Track) : Bool :=
  t.track_type == TrackType.Video

/-- The VideoSpec values a video track would contribute: the width, height
and codec of the video entry at the head of its sample descriptions. -/
def trackSpec (t : Track) : Option VideoSpec :=
  match t.stsd with
  | none => none
  | some stsd =>
    match stsd.descriptions.head? with
    | some (SampleEntry.Video v) =>
      some { width := v.width, height := v.height,
             codec_type := v.codec_type }
    | _ => none

theorem processTrack_video_ok (debug : Bool) (spec spec' : VideoSpec)
    (t : Track) (htt : t.track_type = TrackType.Video)
    (hp : processTrack debug spec t = .ok spec') :
    trackSpec t = some spec' := by
  simp only [processTrack, htt] at hp
  cases hstsd : t.stsd with
  | none => simp [hstsd] at hp
  | some stsd =>
    simp only [hstsd] at hp
    cases hhead : stsd.descriptions.head? with
    | none => simp [hhead] at hp
    | some entry =>
      simp only [hhead] at hp
      cases entry with
      | Audio => simp at hp
      | Unknown => simp at hp
      | Video v =>
        cases hdbg : debugSampleAsserts debug v with
        | error e => simp [hdbg] at hp
        | ok u =>
          simp only [hdbg] at hp
          cases hcf : codecFamilyName v.codec_specific with
          | error e => simp [hcf] at hp
          | ok name =>
            simp only [hcf] at hp
            by_cases hname : name = "AVC"
            · rw [if_pos hname] at hp
              have hspec : spec' = ⟨v.width, v.height, v.codec_type⟩ :=
                (Except.ok.inj hp).symm
              simp [trackSpec, hstsd, hhead, hspec]
            · rw [if_neg hname] at hp
              simp at hp

theorem processTrack_nonvideo (debug : Bool) (spec : VideoSpec) (t : Track)
    (htt : t.track_type ≠ TrackType.Video) :
    processTrack debug spec t = .ok spec := by
  cases h : t.track_type with
  | Video => exact absurd h htt
  | Audio => simp [processTrack, h]
  | Metadata => simp [processTrack, h]
  | Unknown => simp [processTrack, h]

/-- C10: a completed scan ignores every non-video track, leaving the
accumulated VideoSpec unchanged, and ends with the values of the last
video track in the list, each earlier video track's contribution being
overwritten; when the list holds no video track the initial VideoSpec
survives. -/
theorem track_scan_last_video_wins (debug : Bool) (tracks : List Track)
    (init res : VideoSpec) :
    (∀ t spec, t.track_type ≠ TrackType.Video →
      processTrack debug spec t = .ok spec) ∧
    (scanLoop debug init tracks = .ok res →
      match (tracks.filter isVideoTrack).getLast? with
      | none => res = init
      | some t => trackSpec t = some res) := by
  constructor
  · intro t spec htt
    exact processTrack_nonvideo debug spec t htt
  · induction tracks generalizing init with
    | nil =>
      intro h
      have : res = init := (Except.ok.inj h).symm
      simpa using this
    | cons t ts ih =>
      intro h
      by_cases htt : t.track_type = TrackType.Video
      · cases hp : processTrack debug init t with
        | error e => simp [scanLoop, hp] at h
        | ok spec' =>
          have h' : scanLoop debug spec' ts = .ok res := by
            simpa [scanLoop, hp] using h
          have hts : trackSpec t = some spec' :=
            processTrack_video_ok debug init spec' t htt hp
          have hvid : isVideoTrack t = true := by
            simp [isVideoTrack, htt]
          have hfil : (t :: ts).filter isVideoTrack =
              t :: ts.filter isVideoTrack := by
            simp [List.filter_cons, hvid]
          rw [hfil]
          cases hf : ts.filter isVideoTrack with
          | nil =>
            have := ih spec' h'
            rw [hf] at this
            simp only [List.getLast?_singleton]
            simp only [List.getLast?_nil] at this
            rw [hts, this]
          | cons x xs =>
            have := ih spec' h'
            rw [hf] at this
            rw [List.getLast?_cons_cons]
            exact this
      · have hp : processTrack debug init t = .ok init :=
          processTrack_nonvideo debug init t htt
        have h' : scanLoop debug init ts = .ok res := by
          simpa [scanLoop, hp] using h
        have hvid : isVideoTrack t = false := by
          simp [isVideoTrack, htt]
        have hfil : (t :: ts).filter isVideoTrack =
            ts.filter isVideoTrack := by
          simp [List.filter_cons, hvid]
        rw [hfil]
        exact ih init h'

/-- Witness for C10 at a concrete container: an audio track followed by
two AVC video tracks of different dimensions scans, in a release build, to
the dimensions of the second video track, and a metadata track leaves any
accumulated VideoSpec unchanged. -/
theorem track_scan_last_video_wins_witness :
    processTrack false ⟨11, 22, CodecType.H264⟩ ⟨TrackType.Metadata, none⟩ =
        .ok ⟨11, 22, CodecType.H264⟩ ∧
      trackSpec ⟨TrackType.Video, some ⟨[SampleEntry.Video
          ⟨300, 400, CodecType.H264, VideoCodecSpecific.AVCConfig [2]⟩]⟩⟩ =
        some ⟨300, 400, CodecType.H264⟩ :=
  ⟨(track_scan_last_video_wins false [] VideoSpec.default
      VideoSpec.default).1 ⟨TrackType.Metadata, none⟩
      ⟨11, 22, CodecType.H264⟩ (by decide),
    (track_scan_last_video_wins false
      [⟨TrackType.Audio, none⟩,
        ⟨TrackType.Video, some ⟨[SampleEntry.Video
          ⟨100, 200, CodecType.H264, VideoCodecSpecific.AVCConfig [1]⟩]⟩⟩,
        ⟨TrackType.Video, some ⟨[SampleEntry.Video
          ⟨300, 400, CodecType.H264, VideoCodecSpecific.AVCConfig [2]⟩]⟩⟩]
      VideoSpec.default ⟨300, 400, CodecType.H264⟩).2 rfl⟩

end AshVideo
